import Mathlib

set_option maxRecDepth 40000

/-
Shallow embedding of the reactrust reactive runtime
(src/runtime.rs, src/continuations.rs, src/processes.rs, src/signals/runtime.rs,
src/signals/signals.rs).

Modelling conventions, used uniformly below:
* The Rust pools and registration lists are Vec values that are pushed at the
  end and popped from the end.  We represent every such Vec as a Lean List
  whose HEAD is the most recently pushed element, so push is cons and pop is
  head.  Draining a Vec with a for loop (iterating in insertion order, pushing
  each element onto a pool) therefore becomes list append: the drained list is
  appended in front of the target pool, keeping the most recent element on top.
* Rust closures stored as boxed continuations are represented by the deep
  inductive type Task, one constructor per closure shape occurring in the
  sources; running a Task is the interpreter run_task.
* The interpreter takes a fuel argument (first, structurally decreasing) so it
  is total and computable; every run appearing in a theorem uses far less fuel
  than supplied.
* The value signal carries Nat values; the gather closure is a parameter
  g : Nat -> Nat -> Nat, with g e v the result of the Rust call gather(e, &mut v).
* instant_count and invocation_log are observation artifacts that the Rust
  code does not store: instant_count numbers instants starting at 1 and
  invocation_log records each call of an opaque user continuation as
  (instant number, continuation id, value received).  The Rust code's println
  tracing is dropped.
* Cell::take().unwrap() on an empty cell panics in Rust.  In the model the
  corresponding branches return the state unchanged; every such branch is
  unreachable in the runs used by the theorems, except for the result cell of
  execute_process, where the model returns none exactly when the Rust unwrap
  would panic.
-/

namespace Reactrust

/-- Values produced by processes: unit, a natural number, or a pair.
These are the value types occurring in the combinators of src/processes.rs
that the claims exercise. -/
inductive Val where
  | unit : Val
  | nat : Nat → Val
  | pair : Val → Val → Val
  deriving DecidableEq, Repr

/-- Deep syntax of the processes from src/processes.rs and
src/signals/signals.rs used by the claims: ValueProcess, PauseProcess,
JoinProcess, Emit, AwaitImmediate and Present (the last three on the one
modelled signal). -/
inductive Proc where
  | value : Val → Proc
  | pause : Proc → Proc
  | join : Proc → Proc → Proc
  | emit : Nat → Proc
  | awaitImmediate : Proc
  | present : Proc → Proc → Proc
  deriving DecidableEq, Repr

/-- Deep syntax for the boxed continuations stored in pools, signal lists and
shared cells.  Each constructor is one closure shape of the sources:
* user i — an opaque user continuation, observed through the invocation log;
* writeResult — the closure of execute_process that fills the result cell;
* resume k v — the closure pushed by Pause::call, calling k with the captured v;
* pause k — the Pause continuation itself (continuations.rs);
* runProc p k — a closure running process p with continuation k (the
  main_continuation of execute_process, and any process start);
* joinK1 j / joinK2 j — the two closures of JoinProcess::call sharing join
  cell number j;
* presentIf c p / presentElse c p — the two closures of Present::call sharing
  the one-shot continuation cell number c;
* absentFlusher — the closure registered by later_on_absent that calls
  add_later_on_absent_continuations_to_runtime;
* signalUpdate — the end-of-instant closure registered by
  add_update_on_end_of_instant;
* laterPresentWrapper k — the closure built by
  add_later_on_present_continuations_to_runtime (and by later_on_present when
  the signal is already emitted) that feeds k the previous value;
* pushCurrent t / pushEnd t — user callbacks that re-register t on the
  current pool resp. the end-of-instant pool (shapes permitted by the public
  on_current_instant / on_end_of_instant API, used to probe the scheduler). -/
inductive Task where
  | user : Nat → Task
  | writeResult : Task
  | resume : Task → Val → Task
  | pause : Task → Task
  | runProc : Proc → Task → Task
  | joinK1 : Nat → Task
  | joinK2 : Nat → Task
  | presentIf : Nat → Proc → Task
  | presentElse : Nat → Proc → Task
  | absentFlusher : Task
  | signalUpdate : Task
  | laterPresentWrapper : Task → Task
  | pushCurrent : Task → Task
  | pushEnd : Task → Task
  deriving DecidableEq, Repr

/-- The JoinPoint cell of processes.rs: two one-shot result slots and the
one-shot next continuation, shared by joinK1 and joinK2. -/
structure JoinCell where
  p1_result : Option Val
  p2_result : Option Val
  next : Option Task
  deriving DecidableEq, Repr

/-- State of the one modelled signal: the SignalRuntime struct of
src/signals/runtime.rs, with V = E = Nat.  current_value and previous_value
are Cell of Option exactly as in the source. -/
structure SignalRuntime where
  is_currently_emitted : Bool
  call_on_present : List Task
  call_later_on_present : List Task
  call_later_on_absent : List Task
  call_later_on_absent_registered : Bool
  default_value : Nat
  current_value : Option Nat
  previous_value : Option Nat
  deriving DecidableEq, Repr

/-- The whole machine state: the three pools of the Runtime struct of
src/runtime.rs, the signal runtime, the shared one-shot cells allocated by
Present::call and JoinProcess::call (addressed by index, append-only), and
the observation artifacts (instant counter, invocation log, result cell of
execute_process). -/
structure Runtime where
  current_instant_tasks : List Task
  next_instant_tasks : List Task
  end_of_instant_tasks : List Task
  signal : SignalRuntime
  present_cells : List (Option Task)
  join_cells : List JoinCell
  instant_count : Nat
  invocation_log : List (Nat × Nat × Val)
  return_value : Option Val
  deriving DecidableEq, Repr

/-- Runtime::on_current_instant (src/runtime.rs): push onto the current pool. -/
def on_current_instant (t : Task) (s : Runtime) : Runtime :=
  { s with current_instant_tasks := t :: s.current_instant_tasks }

/-- Runtime::on_next_instant (src/runtime.rs): push onto the next pool. -/
def on_next_instant (t : Task) (s : Runtime) : Runtime :=
  { s with next_instant_tasks := t :: s.next_instant_tasks }

/-- Runtime::on_end_of_instant (src/runtime.rs): push onto the
end-of-instant pool. -/
def on_end_of_instant (t : Task) (s : Runtime) : Runtime :=
  { s with end_of_instant_tasks := t :: s.end_of_instant_tasks }

/-- SignalRuntimeRef::gather_value (src/signals/runtime.rs): take the current
value, apply the gather closure, store it back.  The take/unwrap/set dance on
the Cell is a pure Option.map here. -/
def gather_value (g : Nat → Nat → Nat) (e : Nat) (s : Runtime) : Runtime :=
  { s with signal := { s.signal with
      current_value := Option.map (g e) s.signal.current_value } }

/-- SignalRuntimeRef::add_update_on_end_of_instant (src/signals/runtime.rs):
register the signalUpdate closure on the end-of-instant pool. -/
def add_update_on_end_of_instant (s : Runtime) : Runtime :=
  on_end_of_instant Task.signalUpdate s

/-- SignalRuntimeRef::add_on_present_continuations_to_runtime
(src/signals/runtime.rs): drain call_on_present into the current pool. -/
def add_on_present_continuations_to_runtime (s : Runtime) : Runtime :=
  { s with
      current_instant_tasks := s.signal.call_on_present ++ s.current_instant_tasks,
      signal := { s.signal with call_on_present := [] } }

/-- SignalRuntimeRef::add_later_on_present_continuations_to_runtime
(src/signals/runtime.rs): drain call_later_on_present into the next pool,
each continuation wrapped so that it receives the previous value at the
moment it runs. -/
def add_later_on_present_continuations_to_runtime (s : Runtime) : Runtime :=
  { s with
      next_instant_tasks :=
        s.signal.call_later_on_present.map Task.laterPresentWrapper
          ++ s.next_instant_tasks,
      signal := { s.signal with call_later_on_present := [] } }

/-- SignalRuntimeRef::add_later_on_absent_continuations_to_runtime
(src/signals/runtime.rs, lines 146-153): drain call_later_on_absent into the
NEXT pool (the source calls runtime.on_next_instant on each drained
continuation). -/
def add_later_on_absent_continuations_to_runtime (s : Runtime) : Runtime :=
  { s with
      next_instant_tasks := s.signal.call_later_on_absent ++ s.next_instant_tasks,
      signal := { s.signal with call_later_on_absent := [] } }

/-- SignalRuntimeRef::emit (src/signals/runtime.rs, lines 161-178).  If the
signal is already emitted this instant, return immediately (nothing else
happens, in particular the value is not gathered).  Otherwise: mark emitted,
register the end-of-instant update, gather the value, clear the
later-on-absent continuations and their guard bit, then release the
on-present and later-on-present continuations. -/
def emit (g : Nat → Nat → Nat) (e : Nat) (s : Runtime) : Runtime :=
  if s.signal.is_currently_emitted then s
  else
    let s1 := { s with signal := { s.signal with is_currently_emitted := true } }
    let s2 := add_update_on_end_of_instant s1
    let s3 := gather_value g e s2
    let s4 := { s3 with signal := { s3.signal with
                  call_later_on_absent := [],
                  call_later_on_absent_registered := false } }
    add_later_on_present_continuations_to_runtime
      (add_on_present_continuations_to_runtime s4)

/-- SignalRuntimeRef::on_present (src/signals/runtime.rs, lines 182-189):
run this instant if emitted, otherwise park in call_on_present. -/
def on_present (k : Task) (s : Runtime) : Runtime :=
  if s.signal.is_currently_emitted then on_current_instant k s
  else { s with signal := { s.signal with
          call_on_present := k :: s.signal.call_on_present } }

/-- SignalRuntimeRef::later_on_present (src/signals/runtime.rs, lines
195-207): if emitted, schedule for next instant a wrapper feeding k the
previous value; otherwise park in call_later_on_present. -/
def later_on_present (k : Task) (s : Runtime) : Runtime :=
  if s.signal.is_currently_emitted then
    on_next_instant (Task.laterPresentWrapper k) s
  else { s with signal := { s.signal with
          call_later_on_present := k :: s.signal.call_later_on_present } }

/-- SignalRuntimeRef::later_on_absent (src/signals/runtime.rs, lines
211-227): if emitted, drop k.  Otherwise park k in call_later_on_absent and,
if the guard bit is not set, register the absentFlusher for the next instant
and set the guard bit. -/
def later_on_absent (k : Task) (s : Runtime) : Runtime :=
  if s.signal.is_currently_emitted then s
  else
    let s1 := { s with signal := { s.signal with
                 call_later_on_absent := k :: s.signal.call_later_on_absent } }
    if s1.signal.call_later_on_absent_registered then s1
    else
      on_next_instant Task.absentFlusher
        { s1 with signal := { s1.signal with
            call_later_on_absent_registered := true } }

/-- Process::call of each process shape (src/processes.rs,
src/signals/signals.rs), parametric in the interpreter rt used to invoke a
continuation (run_task at the current fuel):
* ValueProcess::call runs the continuation with the stored value;
* PauseProcess::call runs the inner process with the paused continuation;
* JoinProcess::call allocates a JoinPoint and starts both sub-processes with
  the two joining closures;
* Emit::call emits the signal then calls the continuation with unit;
* AwaitImmediate::call registers the continuation via on_present;
* Present::call allocates the shared one-shot continuation cell and registers
  the two branch closures via on_present and later_on_absent. -/
def proc_call (g : Nat → Nat → Nat) (rt : Task → Val → Runtime → Runtime) :
    Proc → Task → Runtime → Runtime
  | .value v, k, s => rt k v s
  | .pause p, k, s => proc_call g rt p (Task.pause k) s
  | .join p1 p2, k, s =>
      let j := s.join_cells.length
      let s1 := { s with join_cells := s.join_cells ++ [⟨none, none, some k⟩] }
      let s2 := proc_call g rt p1 (Task.joinK1 j) s1
      proc_call g rt p2 (Task.joinK2 j) s2
  | .emit e, k, s => rt k Val.unit (emit g e s)
  | .awaitImmediate, k, s => on_present k s
  | .present p1 p2, k, s =>
      let c := s.present_cells.length
      let s1 := { s with present_cells := s.present_cells ++ [some k] }
      let s2 := on_present (Task.presentIf c p1) s1
      later_on_absent (Task.presentElse c p2) s2

/-- The continuation interpreter: calling a boxed continuation with a value,
as the closures of the sources do.  Fuel decreases structurally at each
nested invocation; each theorem below supplies ample fuel. -/
def run_task (g : Nat → Nat → Nat) : Nat → Task → Val → Runtime → Runtime
  | 0, _, _, s => s
  | f + 1, t, v, s =>
    match t with
    | .user i =>
        { s with invocation_log :=
            s.invocation_log ++ [(s.instant_count, i, v)] }
    | .writeResult => { s with return_value := some v }
    | .resume k w => run_task g f k w s
    | .pause k => on_next_instant (Task.resume k v) s
    | .runProc p k => proc_call g (fun k2 v2 s2 => run_task g f k2 v2 s2) p k s
    | .joinK1 j =>
        match s.join_cells[j]? with
        | none => s
        | some cell =>
          match cell.p2_result with
          | some b =>
            match cell.next with
            | none => s
            | some k =>
                run_task g f k (Val.pair v b)
                  { s with join_cells :=
                      s.join_cells.set j ⟨cell.p1_result, none, none⟩ }
          | none =>
              { s with join_cells :=
                  s.join_cells.set j ⟨some v, none, cell.next⟩ }
    | .joinK2 j =>
        match s.join_cells[j]? with
        | none => s
        | some cell =>
          match cell.p1_result with
          | some a =>
            match cell.next with
            | none => s
            | some k =>
                run_task g f k (Val.pair a v)
                  { s with join_cells :=
                      s.join_cells.set j ⟨none, cell.p2_result, none⟩ }
          | none =>
              { s with join_cells :=
                  s.join_cells.set j ⟨none, some v, cell.next⟩ }
    | .presentIf c p =>
        match s.present_cells[c]? with
        | some (some k) =>
            proc_call g (fun k2 v2 s2 => run_task g f k2 v2 s2) p k
              { s with present_cells := s.present_cells.set c none }
        | _ => s
    | .presentElse c p =>
        match s.present_cells[c]? with
        | some (some k) =>
            proc_call g (fun k2 v2 s2 => run_task g f k2 v2 s2) p k
              { s with present_cells := s.present_cells.set c none }
        | _ => s
    | .absentFlusher => add_later_on_absent_continuations_to_runtime s
    | .signalUpdate =>
        { s with signal := { s.signal with
            is_currently_emitted := false,
            call_on_present := [],
            call_later_on_present := [],
            previous_value := s.signal.current_value,
            current_value := some s.signal.default_value } }
    | .laterPresentWrapper k =>
        match s.signal.previous_value with
        | some pv => run_task g f k (Val.nat pv) s
        | none => s
    | .pushCurrent t2 => on_current_instant t2 s
    | .pushEnd t2 => on_end_of_instant t2 s

/-- The loop while self.current_instant() of Runtime::instant
(src/runtime.rs): repeatedly pop the top of the current pool and invoke it
with unit, until the pool is empty (or the loop fuel runs out). -/
def drain_current (g : Nat → Nat → Nat) (tf : Nat) :
    Nat → Runtime → Runtime
  | 0, s => s
  | n + 1, s =>
    match s.current_instant_tasks with
    | [] => s
    | t :: rest =>
        drain_current g tf n
          (run_task g tf t Val.unit { s with current_instant_tasks := rest })

/-- The loop while self.end_of_instant() of Runtime::instant
(src/runtime.rs): repeatedly pop the top of the end-of-instant pool and
invoke it with unit. -/
def drain_end_of_instant (g : Nat → Nat → Nat) (tf : Nat) :
    Nat → Runtime → Runtime
  | 0, s => s
  | n + 1, s =>
    match s.end_of_instant_tasks with
    | [] => s
    | t :: rest =>
        drain_end_of_instant g tf n
          (run_task g tf t Val.unit { s with end_of_instant_tasks := rest })

/-- Runtime::move_to_next_instant (src/runtime.rs, lines 55-66): clear the
current and end-of-instant pools, move the next pool into current.  The
instant counter is the observation artifact.  The Rust function returns
whether the new current pool is non-empty; theorems read that off the
returned state. -/
def move_to_next_instant (s : Runtime) : Runtime :=
  { s with
      current_instant_tasks := s.next_instant_tasks,
      end_of_instant_tasks := [],
      next_instant_tasks := [],
      instant_count := s.instant_count + 1 }

/-- Runtime::instant (src/runtime.rs, lines 38-51): drain the current pool,
then the end-of-instant pool, then move to the next instant. -/
def instant (g : Nat → Nat → Nat) (fuel : Nat) (s : Runtime) : Runtime :=
  move_to_next_instant
    (drain_end_of_instant g fuel fuel (drain_current g fuel fuel s))

/-- Iterated Runtime::instant: run n instants. -/
def run_instants (g : Nat → Nat → Nat) (fuel : Nat) :
    Nat → Runtime → Runtime
  | 0, s => s
  | n + 1, s => run_instants g fuel n (instant g fuel s)

/-- Runtime::execute (src/runtime.rs, lines 29-35): run instants while the
previous one reported remaining work (current pool non-empty after the
tick).  The rounds argument bounds the loop so the model is total. -/
def execute (g : Nat → Nat → Nat) (fuel : Nat) :
    Nat → Runtime → Runtime
  | 0, s => s
  | n + 1, s =>
    let s1 := instant g fuel s
    if s1.current_instant_tasks.isEmpty then s1 else execute g fuel n s1

/-- The initial SignalRuntime of SignalRuntime::new
(src/signals/runtime.rs, lines 44-59) with default value 0. -/
def init_signal : SignalRuntime :=
  { is_currently_emitted := false,
    call_on_present := [],
    call_later_on_present := [],
    call_later_on_absent := [],
    call_later_on_absent_registered := false,
    default_value := 0,
    current_value := some 0,
    previous_value := none }

/-- A fresh Runtime (Runtime::new) whose current pool has been seeded with
the given tasks (most recently pushed first), at instant 1, with a fresh
signal. -/
def init_runtime (tasks : List Task) : Runtime :=
  { current_instant_tasks := tasks,
    next_instant_tasks := [],
    end_of_instant_tasks := [],
    signal := init_signal,
    present_cells := [],
    join_cells := [],
    instant_count := 1,
    invocation_log := [],
    return_value := none }

/-- execute_process (src/processes.rs, lines 107-128): fresh runtime, seed
the main continuation that runs p into the result-writing closure, execute,
then take the result cell.  The returned Option is none exactly when the
final unwrap of the source would panic on the still-empty cell. -/
def execute_process (g : Nat → Nat → Nat) (fuel rounds : Nat) (p : Proc) :
    Option Val :=
  (execute g fuel rounds
    (init_runtime [Task.runProc p Task.writeResult])).return_value

/-- N-fold Proc.pause wrapper: a process that produces its inner value after
n pauses. -/
def pauseN : Nat → Proc → Proc
  | 0, p => p
  | n + 1, p => Proc.pause (pauseN n p)

/-- N-fold Task.pause wrapper on a continuation, as produced by running a
pauseN process. -/
def pauseNK : Nat → Task → Task
  | 0, k => k
  | n + 1, k => Task.pause (pauseNK n k)

/-- The four public signal operations as invokable actions, used to quantify
over arbitrary interleavings of signal API calls within one instant.  User
continuations are registered as opaque user tasks identified by a Nat. -/
inductive SignalOp where
  | emitOp : Nat → SignalOp
  | onPresentOp : Nat → SignalOp
  | laterOnPresentOp : Nat → SignalOp
  | laterOnAbsentOp : Nat → SignalOp
  deriving DecidableEq, Repr

/-- Interpretation of one signal API call on the state. -/
def apply_signal_op (g : Nat → Nat → Nat) : SignalOp → Runtime → Runtime
  | .emitOp e, s => emit g e s
  | .onPresentOp i, s => on_present (Task.user i) s
  | .laterOnPresentOp i, s => later_on_present (Task.user i) s
  | .laterOnAbsentOp i, s => later_on_absent (Task.user i) s

/-- Interpretation of a sequence of signal API calls, first element first. -/
def apply_signal_ops (g : Nat → Nat → Nat) (ops : List SignalOp)
    (s : Runtime) : Runtime :=
  ops.foldl (fun s2 op => apply_signal_op g op s2) s

/-- Whether an operation is an emission. -/
def isEmitOp : SignalOp → Bool
  | .emitOp _ => true
  | _ => false

/-- Whether the operation avoids registering the user continuation i through
the present-side entry points (it may still register i via later_on_absent,
or emit). -/
def opAvoids (i : Nat) : SignalOp → Bool
  | .onPresentOp j => !(j == i)
  | .laterOnPresentOp j => !(j == i)
  | _ => true

/-- Whether the user continuation id i occurs inside a task. -/
def occTask (i : Nat) : Task → Bool
  | .user j => j == i
  | .writeResult => false
  | .resume k _ => occTask i k
  | .pause k => occTask i k
  | .runProc _ k => occTask i k
  | .joinK1 _ => false
  | .joinK2 _ => false
  | .presentIf _ _ => false
  | .presentElse _ _ => false
  | .absentFlusher => false
  | .signalUpdate => false
  | .laterPresentWrapper k => occTask i k
  | .pushCurrent t => occTask i t
  | .pushEnd t => occTask i t

/-- Whether id i occurs in a list of tasks. -/
def occList (i : Nat) (l : List Task) : Bool :=
  l.any (occTask i)

/-- Whether id i occurs in a present cell. -/
def occCell (i : Nat) : Option Task → Bool
  | some t => occTask i t
  | none => false

/-- Whether id i occurs in a join cell (only its continuation slot can hold
a task). -/
def occJoinCell (i : Nat) (c : JoinCell) : Bool :=
  occCell i c.next

/-- Whether id i occurs anywhere in the state other than the
call_later_on_absent list. -/
def occElsewhere (i : Nat) (s : Runtime) : Bool :=
  occList i s.current_instant_tasks ||
  occList i s.next_instant_tasks ||
  occList i s.end_of_instant_tasks ||
  occList i s.signal.call_on_present ||
  occList i s.signal.call_later_on_present ||
  s.present_cells.any (occCell i) ||
  s.join_cells.any (occJoinCell i)

/-- Whether id i occurs anywhere in the state, pools, signal lists and
shared cells included. -/
def occState (i : Nat) (s : Runtime) : Bool :=
  occElsewhere i s || occList i s.signal.call_later_on_absent

/-- The gather closure used in concrete runs: fold an emission into the
accumulator by addition (an instance of the FnMut(E, &mut V) closures of
src/signals/runtime.rs). -/
def addGather : Nat → Nat → Nat := fun e v => e + v

/-- Invariant holding before the signal has been emitted in the current
instant: the user continuation id i occurs at most in the
call_later_on_absent list. -/
def NotYetEmittedInv (i : Nat) (s : Runtime) : Prop :=
  s.signal.is_currently_emitted = false ∧ occElsewhere i s = false

/-- Invariant holding once the signal has been emitted in the current
instant: the user continuation id i occurs nowhere in the state. -/
def EmittedInv (i : Nat) (s : Runtime) : Prop :=
  s.signal.is_currently_emitted = true ∧ occState i s = false

/-- Invariant used for the end-of-instant reset: the signal has not been
emitted and the end-of-instant pool is empty. -/
def CleanEoiInv (s : Runtime) : Prop :=
  s.signal.is_currently_emitted = false ∧ s.end_of_instant_tasks = []

/-- Invariant once emitted: exactly the one signalUpdate closure is pending
on the end-of-instant pool. -/
def EmittedEoiInv (s : Runtime) : Prop :=
  s.signal.is_currently_emitted = true ∧
  s.end_of_instant_tasks = [Task.signalUpdate]

/-- Claim C1, evaluation of the code at the failing input.  Run
present(S, value 1, value 2), registered in instant 1, with the signal never
emitted.  After two instants nothing has been invoked; the else branch fires
only during instant 3.  The absentFlusher registered by later_on_absent runs
in instant 2 but hands the drained continuations to on_next_instant
(src/signals/runtime.rs, lines 146-153), so they are deferred to instant 3
instead of entering the current pool of instant 2, contradicting the claim
(and the claimed ReactiveML timing). -/
theorem c1_else_branch_fires_in_instant_three :
    (run_instants addGather 50 2 (init_runtime
      [Task.runProc
        (Proc.present (Proc.value (Val.nat 1)) (Proc.value (Val.nat 2)))
        (Task.user 0)])).invocation_log = [] ∧
    (run_instants addGather 50 3 (init_runtime
      [Task.runProc
        (Proc.present (Proc.value (Val.nat 1)) (Proc.value (Val.nat 2)))
        (Task.user 0)])).invocation_log = [(3, 0, Val.nat 2)] :=
  ⟨rfl, rfl⟩

/-- Claim C2, counterexample.  An end-of-instant callback pushes the user
continuation 7 onto the current pool during the end-of-instant phase of
instant 1.  That continuation is never invoked: the invocation log stays
empty for the whole execution, because Runtime::instant never returns to the
current pool after the end-of-instant loop and move_to_next_instant clears
the current pool at the tick. -/
theorem c2_counterexample_push_to_current_dropped :
    (instant addGather 50 (init_runtime
      [Task.pushEnd (Task.pushCurrent (Task.user 7))])).invocation_log = [] ∧
    (execute addGather 50 5 (init_runtime
      [Task.pushEnd (Task.pushCurrent (Task.user 7))])).invocation_log = [] :=
  ⟨rfl, rfl⟩

/-- Claim C2, amended.  During the end-of-instant phase of instant 1, a
callback that pushes a continuation onto the current pool gets it silently
discarded at the clock tick (no invocation, current pool empty afterwards),
while a callback that pushes onto the end-of-instant pool does get that
continuation executed within the same instant. -/
theorem c2_end_of_instant_pushes (g : Nat → Nat → Nat) (i : Nat) :
    (instant g 50 (init_runtime
      [Task.pushEnd (Task.pushCurrent (Task.user i))])).invocation_log = []
    ∧ (instant g 50 (init_runtime
      [Task.pushEnd (Task.pushCurrent (Task.user i))])).current_instant_tasks = []
    ∧ (instant g 50 (init_runtime
      [Task.pushEnd (Task.pushEnd (Task.user i))])).invocation_log
        = [(1, i, Val.unit)] :=
  ⟨rfl, rfl, rfl⟩

/-- Claim C4, counterexample.  With gather = addition and default 0, emitting
1 then 2 in the same instant leaves the gathered value at 1: the second
emission is dropped by the early return of emit, so the claimed fold of all
emitted values (which would give 3) does not happen. -/
theorem c4_counterexample_second_emission_not_gathered :
    (apply_signal_ops addGather [SignalOp.emitOp 1, SignalOp.emitOp 2]
      (init_runtime [])).signal.current_value = some 1
    ∧ (apply_signal_ops addGather [SignalOp.emitOp 1, SignalOp.emitOp 2]
      (init_runtime [])).signal.current_value
        ≠ some (addGather 2 (addGather 1 0)) :=
  ⟨rfl, by decide⟩

/-- Claim C5, counterexample.  Run present(S, value 1, value 2) for one full
instant (current phase, end-of-instant phase, tick) with no emission: the
later_on_absent registration set the guard bit, and after the end-of-instant
phase the guard bit is still true, contradicting the claim that it is
cleared at end-of-instant. -/
theorem c5_counterexample_guard_survives_end_of_instant :
    (instant addGather 50 (init_runtime
      [Task.runProc
        (Proc.present (Proc.value (Val.nat 1)) (Proc.value (Val.nat 2)))
        (Task.user 0)])).signal.call_later_on_absent_registered = true :=
  rfl

/-- Claim C5, amended.  The guard bit call_later_on_absent_registered is
cleared by emit (when the emission is effective) and only there: the
end-of-instant update closure leaves it untouched, and a later_on_absent
registration made while the guard bit is set registers no fresh flusher (the
next pool is unchanged). -/
theorem c5_guard_cleared_only_on_emission (g : Nat → Nat → Nat) (e : Nat)
    (k : Task) (v : Val) (s : Runtime) :
    ((emit g e s).signal.call_later_on_absent_registered
      = if s.signal.is_currently_emitted then
          s.signal.call_later_on_absent_registered
        else false)
    ∧ ((run_task g 1 Task.signalUpdate v s).signal.call_later_on_absent_registered
      = s.signal.call_later_on_absent_registered)
    ∧ ((later_on_absent k s).next_instant_tasks
      = if s.signal.is_currently_emitted then s.next_instant_tasks
        else if s.signal.call_later_on_absent_registered then
          s.next_instant_tasks
        else Task.absentFlusher :: s.next_instant_tasks) := by
  refine ⟨?_, rfl, ?_⟩
  · cases h : s.signal.is_currently_emitted <;>
      simp [emit, h, add_update_on_end_of_instant, on_end_of_instant,
        gather_value, add_on_present_continuations_to_runtime,
        add_later_on_present_continuations_to_runtime]
  · cases h : s.signal.is_currently_emitted <;>
      cases h2 : s.signal.call_later_on_absent_registered <;>
        simp [later_on_absent, h, h2, on_next_instant]

/-- Claim C6.  For every value v and gather closure g, the process
value(v).pause() seeded into a fresh scheduler at instant 1 delivers v to
its continuation exactly in instant 2: after one instant the result cell is
still empty, after two instants it holds v (so the delivery is neither in
instant 1 nor in instant 3 or later). -/
theorem c6_pause_is_exactly_one_instant (g : Nat → Nat → Nat) (v : Val) :
    (run_instants g 50 1 (init_runtime
      [Task.runProc (Proc.pause (Proc.value v)) Task.writeResult])).return_value
        = none
    ∧ (run_instants g 50 2 (init_runtime
      [Task.runProc (Proc.pause (Proc.value v)) Task.writeResult])).return_value
        = some v
    ∧ (run_instants g 50 2 (init_runtime
      [Task.runProc (Proc.pause (Proc.value v)) Task.writeResult])).current_instant_tasks
        = [] :=
  ⟨rfl, rfl, rfl⟩

/-- Claim C9.  For every value v and gather closure g, execute_process on
value(v) returns v; the value is already in the result cell after the first
instant, whose tick finds the current pool empty, so the first instant
reports that no work remains and execute stops after it. -/
theorem c9_execute_value_single_instant (g : Nat → Nat → Nat) (v : Val) :
    execute_process g 50 5 (Proc.value v) = some v
    ∧ (instant g 50 (init_runtime
        [Task.runProc (Proc.value v) Task.writeResult])).return_value = some v
    ∧ (instant g 50 (init_runtime
        [Task.runProc (Proc.value v) Task.writeResult])).current_instant_tasks
          = [] :=
  ⟨rfl, rfl, rfl⟩

/-- Claim C10.  Awaiting a signal that is never emitted parks the final
continuation in call_on_present; after the first instant all three pools are
empty, so Runtime::execute returns immediately (no livelock), the result
cell is still empty, and execute_process comes back with the empty cell
whose unwrap panics in the source (modelled by the none result). -/
theorem c10_execute_returns_and_unwrap_panics (g : Nat → Nat → Nat)
    (k : Task) :
    ((instant g 50 (init_runtime
        [Task.runProc Proc.awaitImmediate k])).current_instant_tasks = []
      ∧ (instant g 50 (init_runtime
        [Task.runProc Proc.awaitImmediate k])).next_instant_tasks = []
      ∧ (instant g 50 (init_runtime
        [Task.runProc Proc.awaitImmediate k])).end_of_instant_tasks = []
      ∧ (instant g 50 (init_runtime
        [Task.runProc Proc.awaitImmediate k])).return_value = none)
    ∧ execute_process g 50 5 Proc.awaitImmediate = none :=
  ⟨⟨rfl, rfl, rfl, rfl⟩, rfl⟩

/-- Helper: the laterPresentWrapper wrapping of a list does not change which
user ids occur in it. -/
theorem occList_map_wrapper (i : Nat) (l : List Task) :
    occList i (l.map Task.laterPresentWrapper) = occList i l := by
  induction l with
  | nil => rfl
  | cons h t ih => simp [occList, occTask] at ih ⊢; rw [ih]

/-- Helper: before the emission, a signal operation that avoids the id i on
the present side keeps i out of every part of the state except possibly
call_later_on_absent. -/
theorem c3_step_stay (g : Nat → Nat → Nat) (op : SignalOp) (i : Nat)
    (s : Runtime) (hav : opAvoids i op = true) (hne : isEmitOp op = false)
    (h : NotYetEmittedInv i s) : NotYetEmittedInv i (apply_signal_op g op s) := by
  obtain ⟨hem, hocc⟩ := h
  cases op with
  | emitOp e => simp [isEmitOp] at hne
  | onPresentOp j =>
      simp [opAvoids] at hav
      refine ⟨by simp [apply_signal_op, on_present, hem], ?_⟩
      simp [apply_signal_op, on_present, hem, occElsewhere, occList, occTask,
        hav] at hocc ⊢
      exact hocc
  | laterOnPresentOp j =>
      simp [opAvoids] at hav
      refine ⟨by simp [apply_signal_op, later_on_present, hem], ?_⟩
      simp [apply_signal_op, later_on_present, hem, occElsewhere, occList,
        occTask, hav] at hocc ⊢
      exact hocc
  | laterOnAbsentOp j =>
      constructor
      · by_cases hreg : s.signal.call_later_on_absent_registered <;>
          simp [apply_signal_op, later_on_absent, hem, hreg, on_next_instant]
      · by_cases hreg : s.signal.call_later_on_absent_registered <;>
          · simp [apply_signal_op, later_on_absent, hem, hreg, on_next_instant,
              occElsewhere, occList, occTask] at hocc ⊢
            exact hocc

/-- Helper: an effective emission moves the parked present-side
continuations into the pools, empties call_later_on_absent and keeps the id
i (absent from everything but call_later_on_absent) out of the whole state. -/
theorem c3_step_emit (g : Nat → Nat → Nat) (e : Nat) (i : Nat) (s : Runtime)
    (h : NotYetEmittedInv i s) : EmittedInv i (apply_signal_op g (SignalOp.emitOp e) s) := by
  obtain ⟨hem, hocc⟩ := h
  constructor
  · simp [apply_signal_op, emit, hem, add_update_on_end_of_instant,
      on_end_of_instant, gather_value, add_on_present_continuations_to_runtime,
      add_later_on_present_continuations_to_runtime]
  · simp [apply_signal_op, emit, hem, add_update_on_end_of_instant,
      on_end_of_instant, gather_value, add_on_present_continuations_to_runtime,
      add_later_on_present_continuations_to_runtime, occState, occElsewhere,
      occList, occTask, occList_map_wrapper] at hocc ⊢
    tauto

/-- Helper: once the signal is emitted, operations that avoid the id i on
the present side keep i out of the whole state (in particular later_on_absent
registrations of any id are dropped entirely). -/
theorem c3_step_emitted (g : Nat → Nat → Nat) (op : SignalOp) (i : Nat)
    (s : Runtime) (hav : opAvoids i op = true) (h : EmittedInv i s) :
    EmittedInv i (apply_signal_op g op s) := by
  obtain ⟨hem, hocc⟩ := h
  cases op with
  | emitOp e => simpa [apply_signal_op, emit, hem] using ⟨hem, hocc⟩
  | onPresentOp j =>
      simp [opAvoids] at hav
      refine ⟨by simp [apply_signal_op, on_present, hem, on_current_instant], ?_⟩
      simp [apply_signal_op, on_present, hem, on_current_instant, occState,
        occElsewhere, occList, occTask, hav] at hocc ⊢
      tauto
  | laterOnPresentOp j =>
      simp [opAvoids] at hav
      refine ⟨by simp [apply_signal_op, later_on_present, hem, on_next_instant], ?_⟩
      simp [apply_signal_op, later_on_present, hem, on_next_instant, occState,
        occElsewhere, occList, occTask, hav] at hocc ⊢
      tauto
  | laterOnAbsentOp j =>
      simpa [apply_signal_op, later_on_absent, hem] using ⟨hem, hocc⟩

/-- Helper: folding the step lemmas over a whole operation sequence. -/
theorem c3_fold (g : Nat → Nat → Nat) (ops : List SignalOp) (i : Nat)
    (hall : ∀ op ∈ ops, opAvoids i op = true) (s : Runtime) :
    (EmittedInv i s → EmittedInv i (apply_signal_ops g ops s))
    ∧ (NotYetEmittedInv i s → ops.any isEmitOp = true →
        EmittedInv i (apply_signal_ops g ops s)) := by
  induction ops generalizing s with
  | nil =>
      exact ⟨fun h => h, fun _ hany => by simp at hany⟩
  | cons op rest ih =>
      have hop : opAvoids i op = true := hall op (by simp)
      have hrest : ∀ o ∈ rest, opAvoids i o = true :=
        fun o ho => hall o (List.mem_cons_of_mem _ ho)
      constructor
      · intro h
        exact (ih hrest (apply_signal_op g op s)).1 (c3_step_emitted g op i s hop h)
      · intro h hany
        cases hm : isEmitOp op with
        | true =>
            cases op with
            | emitOp e =>
                exact (ih hrest _).1 (c3_step_emit g e i s h)
            | onPresentOp j => simp [isEmitOp] at hm
            | laterOnPresentOp j => simp [isEmitOp] at hm
            | laterOnAbsentOp j => simp [isEmitOp] at hm
        | false =>
            have hany2 : rest.any isEmitOp = true := by
              rw [List.any_cons, hm, Bool.false_or] at hany; exact hany
            exact (ih hrest _).2 (c3_step_stay g op i s hop hm h) hany2

/-- Claim C3.  Absent exclusion: take any interleaving of signal API calls
within one instant (emissions, on_present, later_on_present and
later_on_absent registrations), starting from a state in which the signal is
not yet emitted and the user continuation id i does not occur.  If the
sequence contains an emission and never registers i through the present-side
entry points (eagerly registering i via later_on_absent any number of times,
before or after the emission, is allowed), then after the whole sequence the
id i occurs nowhere in the state: emit purged the absent queue even for
registrations made earlier in the instant, and registrations made after the
emission were dropped on entry; since i is not stored anywhere, it can never
be invoked as an absent-reaction. -/
theorem c3_absent_exclusion (g : Nat → Nat → Nat) (ops : List SignalOp)
    (i : Nat) (s : Runtime)
    (h1 : s.signal.is_currently_emitted = false)
    (h2 : occState i s = false)
    (h3 : ops.any isEmitOp = true)
    (h4 : ∀ op ∈ ops, opAvoids i op = true) :
    occState i (apply_signal_ops g ops s) = false := by
  have hocc : occElsewhere i s = false := by
    simp [occState] at h2; exact h2.1
  exact ((c3_fold g ops i h4 s).2 ⟨h1, hocc⟩ h3).2

/-- Claim C3, witness: two later_on_absent registrations of id 1, one before
and one after the emission, leave id 1 nowhere in the state. -/
theorem c3_witness :
    (init_runtime []).signal.is_currently_emitted = false
    ∧ occState 1 (init_runtime []) = false
    ∧ ([SignalOp.laterOnAbsentOp 1, SignalOp.emitOp 5,
        SignalOp.laterOnAbsentOp 1].any isEmitOp = true)
    ∧ occState 1 (apply_signal_ops addGather
        [SignalOp.laterOnAbsentOp 1, SignalOp.emitOp 5,
         SignalOp.laterOnAbsentOp 1] (init_runtime [])) = false :=
  ⟨rfl, rfl, rfl,
    c3_absent_exclusion addGather
      [SignalOp.laterOnAbsentOp 1, SignalOp.emitOp 5, SignalOp.laterOnAbsentOp 1]
      1 (init_runtime []) rfl rfl rfl (by decide)⟩

/-- Helper: emit on an already-emitted signal is the identity (the early
return of SignalRuntimeRef::emit). -/
theorem emit_noop_when_emitted (g : Nat → Nat → Nat) (e : Nat) (s : Runtime)
    (h : s.signal.is_currently_emitted = true) : emit g e s = s := by
  simp [emit, h]

/-- Helper: any further emissions in the same instant leave the state
untouched. -/
theorem apply_emits_noop (g : Nat → Nat → Nat) (es : List Nat) :
    ∀ s : Runtime, s.signal.is_currently_emitted = true →
      apply_signal_ops g (es.map SignalOp.emitOp) s = s := by
  induction es with
  | nil => intro s _; rfl
  | cons e rest ih =>
      intro s h
      show apply_signal_ops g (rest.map SignalOp.emitOp) (emit g e s) = s
      rw [emit_noop_when_emitted g e s h]
      exact ih s h

/-- Helper: an effective emission marks the signal emitted and folds exactly
its value into the accumulator. -/
theorem emit_effect (g : Nat → Nat → Nat) (e : Nat) (s : Runtime)
    (h : s.signal.is_currently_emitted = false) :
    (emit g e s).signal.is_currently_emitted = true
    ∧ (emit g e s).signal.current_value
        = Option.map (g e) s.signal.current_value := by
  constructor <;>
    simp [emit, h, gather_value, add_update_on_end_of_instant,
      on_end_of_instant, add_on_present_continuations_to_runtime,
      add_later_on_present_continuations_to_runtime]

/-- Claim C4, amended.  When emit is called several times in one instant
with values e, e2, e3, ..., only the first value is folded into the
accumulator through the gather function; every later emission hits the
early return of emit and its value is discarded, so the instant ends with
gather applied once to the first value and the initial accumulator. -/
theorem c4_only_first_emission_gathered (g : Nat → Nat → Nat) (e : Nat)
    (es : List Nat) (s : Runtime)
    (h : s.signal.is_currently_emitted = false) :
    (apply_signal_ops g ((e :: es).map SignalOp.emitOp) s).signal.current_value
      = Option.map (g e) s.signal.current_value := by
  show (apply_signal_ops g (es.map SignalOp.emitOp) (emit g e s)).signal.current_value = _
  rw [apply_emits_noop g es _ (emit_effect g e s h).1]
  exact (emit_effect g e s h).2

/-- Claim C4, amended, witness: emitting 1 then 2 with the additive gather
leaves the accumulator at gather 1 0 = 1. -/
theorem c4_witness :
    (init_runtime []).signal.is_currently_emitted = false
    ∧ (apply_signal_ops addGather ([1, 2].map SignalOp.emitOp)
        (init_runtime [])).signal.current_value
      = Option.map (addGather 1) (init_runtime []).signal.current_value :=
  ⟨rfl, c4_only_first_emission_gathered addGather 1 [2] (init_runtime []) rfl⟩

/-- Helper: a non-emission operation changes neither the emitted flag nor
the end-of-instant pool. -/
theorem c8_step_clean (g : Nat → Nat → Nat) (op : SignalOp) (s : Runtime)
    (hne : isEmitOp op = false) (h : CleanEoiInv s) :
    CleanEoiInv (apply_signal_op g op s) := by
  obtain ⟨hem, heoi⟩ := h
  cases op with
  | emitOp e => simp [isEmitOp] at hne
  | onPresentOp j => exact ⟨by simp [apply_signal_op, on_present, hem],
      by simp [apply_signal_op, on_present, hem, heoi]⟩
  | laterOnPresentOp j => exact ⟨by simp [apply_signal_op, later_on_present, hem],
      by simp [apply_signal_op, later_on_present, hem, heoi]⟩
  | laterOnAbsentOp j =>
      by_cases hreg : s.signal.call_later_on_absent_registered <;>
        exact ⟨by simp [apply_signal_op, later_on_absent, hem, hreg, on_next_instant],
          by simp [apply_signal_op, later_on_absent, hem, hreg, on_next_instant, heoi]⟩

/-- Helper: the effective emission registers exactly one signalUpdate on the
empty end-of-instant pool. -/
theorem c8_step_emit (g : Nat → Nat → Nat) (e : Nat) (s : Runtime)
    (h : CleanEoiInv s) : EmittedEoiInv (emit g e s) := by
  obtain ⟨hem, heoi⟩ := h
  constructor <;>
    simp [emit, hem, heoi, add_update_on_end_of_instant, on_end_of_instant,
      gather_value, add_on_present_continuations_to_runtime,
      add_later_on_present_continuations_to_runtime]

/-- Helper: once emitted with the one pending signalUpdate, every further
operation keeps exactly that end-of-instant closure pending. -/
theorem c8_step_emitted (g : Nat → Nat → Nat) (op : SignalOp) (s : Runtime)
    (h : EmittedEoiInv s) : EmittedEoiInv (apply_signal_op g op s) := by
  obtain ⟨hem, heoi⟩ := h
  cases op with
  | emitOp e => simpa [apply_signal_op, emit, hem] using ⟨hem, heoi⟩
  | onPresentOp j => exact ⟨by simp [apply_signal_op, on_present, hem, on_current_instant],
      by simp [apply_signal_op, on_present, hem, on_current_instant, heoi]⟩
  | laterOnPresentOp j => exact ⟨by simp [apply_signal_op, later_on_present, hem, on_next_instant],
      by simp [apply_signal_op, later_on_present, hem, on_next_instant, heoi]⟩
  | laterOnAbsentOp j => simpa [apply_signal_op, later_on_absent, hem] using ⟨hem, heoi⟩

/-- Helper: folding the end-of-instant bookkeeping over the sequence. -/
theorem c8_fold (g : Nat → Nat → Nat) (ops : List SignalOp) (s : Runtime) :
    (EmittedEoiInv s → EmittedEoiInv (apply_signal_ops g ops s))
    ∧ (CleanEoiInv s → ops.any isEmitOp = true →
        EmittedEoiInv (apply_signal_ops g ops s)) := by
  induction ops generalizing s with
  | nil => exact ⟨fun h => h, fun _ hany => by simp at hany⟩
  | cons op rest ih =>
      constructor
      · intro h
        exact (ih (apply_signal_op g op s)).1 (c8_step_emitted g op s h)
      · intro h hany
        cases hm : isEmitOp op with
        | true =>
            cases op with
            | emitOp e => exact (ih _).1 (c8_step_emit g e s h)
            | onPresentOp j => simp [isEmitOp] at hm
            | laterOnPresentOp j => simp [isEmitOp] at hm
            | laterOnAbsentOp j => simp [isEmitOp] at hm
        | false =>
            have hany2 : rest.any isEmitOp = true := by
              rw [List.any_cons, hm, Bool.false_or] at hany; exact hany
            exact (ih _).2 (c8_step_clean g op s hm h) hany2

/-- Helper: draining an end-of-instant pool holding exactly the signalUpdate
closure performs the reset of add_update_on_end_of_instant: previous value
becomes the gathered current value, the current value is reinitialised to
the default, the emitted flag falls, and the parked present-side lists are
cleared. -/
theorem drain_single_update (g : Nat → Nat → Nat) (s : Runtime)
    (h : s.end_of_instant_tasks = [Task.signalUpdate]) :
    drain_end_of_instant g 50 50 s =
      { s with end_of_instant_tasks := [],
               signal := { s.signal with
                 is_currently_emitted := false,
                 call_on_present := [],
                 call_later_on_present := [],
                 previous_value := s.signal.current_value,
                 current_value := some s.signal.default_value } } := by
  rcases s with ⟨cur, nxt, eoi, sig, pc, jc, ic, log, rv⟩
  change eoi = [Task.signalUpdate] at h
  subst h
  rfl

/-- Claim C8.  For any interleaving of signal API calls within one instant
that contains an emission, starting from a not-yet-emitted state with an
empty end-of-instant pool: after the end-of-instant phase the previous value
holds exactly what the current value had accumulated during the instant, the
current value is reset to the default, and the emitted flag is cleared.
Moreover the invariant (not emitted implies current value equals the
default) is preserved by every signal operation. -/
theorem c8_end_of_instant_reset (g : Nat → Nat → Nat) (ops : List SignalOp)
    (s : Runtime)
    (h1 : s.signal.is_currently_emitted = false)
    (h2 : s.end_of_instant_tasks = [])
    (h3 : ops.any isEmitOp = true) :
    ((drain_end_of_instant g 50 50 (apply_signal_ops g ops s)).signal.previous_value
        = (apply_signal_ops g ops s).signal.current_value
      ∧ (drain_end_of_instant g 50 50 (apply_signal_ops g ops s)).signal.current_value
        = some (drain_end_of_instant g 50 50 (apply_signal_ops g ops s)).signal.default_value
      ∧ (drain_end_of_instant g 50 50 (apply_signal_ops g ops s)).signal.is_currently_emitted
        = false)
    ∧ (∀ (op : SignalOp) (s2 : Runtime),
        (s2.signal.is_currently_emitted = false →
          s2.signal.current_value = some s2.signal.default_value) →
        (apply_signal_op g op s2).signal.is_currently_emitted = false →
        (apply_signal_op g op s2).signal.current_value
          = some (apply_signal_op g op s2).signal.default_value) := by
  constructor
  · have hE := (c8_fold g ops s).2 ⟨h1, h2⟩ h3
    rw [drain_single_update g _ hE.2]
    exact ⟨rfl, rfl, rfl⟩
  · intro op s2 hinv hem
    cases op with
    | emitOp e =>
        simp only [apply_signal_op] at hem ⊢
        cases h : s2.signal.is_currently_emitted with
        | true =>
            rw [emit_noop_when_emitted g e s2 h] at hem ⊢
            exact hinv hem
        | false =>
            have ht := (emit_effect g e s2 h).1
            rw [hem] at ht
            simp at ht
    | onPresentOp j =>
        simp only [apply_signal_op] at hem ⊢
        cases h : s2.signal.is_currently_emitted with
        | true => simp [on_present, h, on_current_instant] at hem
        | false => simp [on_present, h]; exact hinv h
    | laterOnPresentOp j =>
        simp only [apply_signal_op] at hem ⊢
        cases h : s2.signal.is_currently_emitted with
        | true => simp [later_on_present, h, on_next_instant] at hem
        | false => simp [later_on_present, h]; exact hinv h
    | laterOnAbsentOp j =>
        simp only [apply_signal_op] at hem ⊢
        cases h : s2.signal.is_currently_emitted with
        | true => simp [later_on_absent, h] at hem
        | false =>
            cases hreg : s2.signal.call_later_on_absent_registered with
            | true => simp [later_on_absent, h, hreg, on_next_instant]; exact hinv h
            | false => simp [later_on_absent, h, hreg, on_next_instant]; exact hinv h

/-- Claim C8, witness: emitting 7 with the additive gather from the fresh
state: after the end-of-instant phase previous holds 7 and current is back
to the default 0. -/
theorem c8_witness :
    (init_runtime []).signal.is_currently_emitted = false
    ∧ (init_runtime []).end_of_instant_tasks = []
    ∧ ([SignalOp.emitOp 7].any isEmitOp = true)
    ∧ ((drain_end_of_instant addGather 50 50
          (apply_signal_ops addGather [SignalOp.emitOp 7]
            (init_runtime []))).signal.previous_value
        = (apply_signal_ops addGather [SignalOp.emitOp 7]
            (init_runtime [])).signal.current_value) :=
  ⟨rfl, rfl, rfl,
    ((c8_end_of_instant_reset addGather [SignalOp.emitOp 7]
      (init_runtime []) rfl rfl rfl).1).1⟩

/-- Helper: sliding a pause wrapper through the n-fold pause continuation. -/
theorem pauseNK_shift (n : Nat) (k : Task) :
    pauseNK n (Task.pause k) = Task.pause (pauseNK n k) := by
  induction n with
  | zero => rfl
  | succ m ih => simp [pauseNK, ih]

/-- Helper: running an n-fold paused process is running the inner process
into the n-fold paused continuation (PauseProcess::call unfolded n times). -/
theorem proc_call_pauseN (g : Nat → Nat → Nat)
    (rt : Task → Val → Runtime → Runtime) (n : Nat) (p : Proc) :
    ∀ (k : Task) (s : Runtime),
    proc_call g rt (pauseN n p) k s = proc_call g rt p (pauseNK n k) s := by
  induction n with
  | zero => intro k s; rfl
  | succ m ih =>
      intro k s
      show proc_call g rt (pauseN m p) (Task.pause k) s = _
      rw [ih (Task.pause k), pauseNK_shift]
      rfl

/-- Helper: one instant peels exactly one pause wrapper off the single
pending resume continuation. -/
theorem instant_peel (g : Nat → Nat → Nat) (m : Nat) (k : Task) (v : Val)
    (sig : SignalRuntime) (pc : List (Option Task)) (jc : List JoinCell)
    (ic : Nat) (log : List (Nat × Nat × Val)) (rv : Option Val) :
    instant g 50 (Runtime.mk [Task.resume (pauseNK (m + 1) k) v] [] []
        sig pc jc ic log rv)
      = Runtime.mk [Task.resume (pauseNK m k) v] [] [] sig pc jc (ic + 1)
          log rv :=
  rfl

/-- Helper: m instants peel the m-fold pause wrapper, advancing the instant
counter by m and touching nothing else. -/
theorem run_peel (g : Nat → Nat → Nat) (m : Nat) :
    ∀ (k : Task) (v : Val) (sig : SignalRuntime) (pc : List (Option Task))
      (jc : List JoinCell) (ic : Nat) (log : List (Nat × Nat × Val))
      (rv : Option Val),
    run_instants g 50 m (Runtime.mk [Task.resume (pauseNK m k) v] [] []
        sig pc jc ic log rv)
      = Runtime.mk [Task.resume k v] [] [] sig pc jc (ic + m) log rv := by
  induction m with
  | zero => intro k v sig pc jc ic log rv; rfl
  | succ m ih =>
      intro k v sig pc jc ic log rv
      show run_instants g 50 m (instant g 50 (Runtime.mk
          [Task.resume (pauseNK (m + 1) k) v] [] [] sig pc jc ic log rv)) = _
      rw [instant_peel g m k v sig pc jc ic log rv]
      rw [ih k v sig pc jc (ic + 1) log rv]
      congr 1
      omega

/-- Helper: an instant commutes through an iterated run. -/
theorem run_instants_swap (g : Nat → Nat → Nat) (f : Nat) :
    ∀ (n : Nat) (s : Runtime),
    run_instants g f n (instant g f s) = instant g f (run_instants g f n s) := by
  intro n
  induction n with
  | zero => intro s; rfl
  | succ n ih =>
      intro s
      show run_instants g f n (instant g f (instant g f s)) = _
      exact ih (instant g f s)

/-- Helper: splitting an iterated run. -/
theorem run_instants_add (g : Nat → Nat → Nat) (f n : Nat) :
    ∀ (m : Nat) (s : Runtime),
    run_instants g f (n + m) s
      = run_instants g f m (run_instants g f n s) := by
  intro m
  induction m with
  | zero => intro s; rfl
  | succ m ih =>
      intro s
      show run_instants g f (n + m) (instant g f s) = _
      rw [ih (instant g f s), run_instants_swap]
      rfl

/-- Helper: first instant of join(value a, pause^(e+1)(value b)): the left
sub-process completes immediately and parks a in the join cell; the right
one parks its paused resume continuation for the next instant. -/
theorem join_start_right (g : Nat → Nat → Nat) (a b : Val) (e : Nat) :
    instant g 50 (init_runtime
      [Task.runProc (Proc.join (Proc.value a) (pauseN (e + 1) (Proc.value b)))
        (Task.user 0)])
      = Runtime.mk [Task.resume (pauseNK e (Task.joinK2 0)) b] [] []
          init_signal [] [⟨some a, none, some (Task.user 0)⟩] 2 [] none := by
  have h2 : proc_call g (fun k2 v2 s2 => run_task g 49 k2 v2 s2)
      (pauseN (e + 1) (Proc.value b)) (Task.joinK2 0)
      (Runtime.mk [] [] [] init_signal []
        [⟨some a, none, some (Task.user 0)⟩] 1 [] none)
      = Runtime.mk [] [Task.resume (pauseNK e (Task.joinK2 0)) b] []
          init_signal [] [⟨some a, none, some (Task.user 0)⟩] 1 [] none := by
    rw [proc_call_pauseN]
    rfl
  show move_to_next_instant (drain_end_of_instant g 50 50 (drain_current g 50 49
      (proc_call g (fun k2 v2 s2 => run_task g 49 k2 v2 s2)
        (pauseN (e + 1) (Proc.value b)) (Task.joinK2 0)
        (Runtime.mk [] [] [] init_signal []
          [⟨some a, none, some (Task.user 0)⟩] 1 [] none)))) = _
  rw [h2]
  rfl

/-- Helper: first instant of join(pause^(e+1)(value a), value b): the left
sub-process parks its paused resume continuation, the right one completes
immediately and parks b in the join cell. -/
theorem join_start_left (g : Nat → Nat → Nat) (a b : Val) (e : Nat) :
    instant g 50 (init_runtime
      [Task.runProc (Proc.join (pauseN (e + 1) (Proc.value a)) (Proc.value b))
        (Task.user 0)])
      = Runtime.mk [Task.resume (pauseNK e (Task.joinK1 0)) a] [] []
          init_signal [] [⟨none, some b, some (Task.user 0)⟩] 2 [] none := by
  have hA : proc_call g (fun k2 v2 s2 => run_task g 49 k2 v2 s2)
      (pauseN (e + 1) (Proc.value a)) (Task.joinK1 0)
      (Runtime.mk [] [] [] init_signal []
        [⟨none, none, some (Task.user 0)⟩] 1 [] none)
      = Runtime.mk [] [Task.resume (pauseNK e (Task.joinK1 0)) a] []
          init_signal [] [⟨none, none, some (Task.user 0)⟩] 1 [] none := by
    rw [proc_call_pauseN]
    rfl
  show move_to_next_instant (drain_end_of_instant g 50 50 (drain_current g 50 49
      (proc_call g (fun k2 v2 s2 => run_task g 49 k2 v2 s2) (Proc.value b)
        (Task.joinK2 0)
        (proc_call g (fun k2 v2 s2 => run_task g 49 k2 v2 s2)
          (pauseN (e + 1) (Proc.value a)) (Task.joinK1 0)
          (Runtime.mk [] [] [] init_signal []
            [⟨none, none, some (Task.user 0)⟩] 1 [] none))))) = _
  rw [hA]
  rfl

/-- Helper: the completing instant of the delayed right sub-process: joinK2
finds a stored, consumes the one-shot next continuation with the pair and
empties the cell. -/
theorem join_finish_right (g : Nat → Nat → Nat) (a b : Val) (ic : Nat) :
    instant g 50 (Runtime.mk [Task.resume (Task.joinK2 0) b] [] []
        init_signal [] [⟨some a, none, some (Task.user 0)⟩] ic [] none)
      = Runtime.mk [] [] [] init_signal [] [⟨none, none, none⟩] (ic + 1)
          [(ic, 0, Val.pair a b)] none :=
  rfl

/-- Helper: the completing instant of the delayed left sub-process: joinK1
finds b stored, consumes the one-shot next continuation with the pair and
empties the cell. -/
theorem join_finish_left (g : Nat → Nat → Nat) (a b : Val) (ic : Nat) :
    instant g 50 (Runtime.mk [Task.resume (Task.joinK1 0) a] [] []
        init_signal [] [⟨none, some b, some (Task.user 0)⟩] ic [] none)
      = Runtime.mk [] [] [] init_signal [] [⟨none, none, none⟩] (ic + 1)
          [(ic, 0, Val.pair a b)] none :=
  rfl

/-- Claim C7.  For all values a, b and every delay d, running
join(value a, pause^d(value b)) and join(pause^d(value a), value b) under a
fresh scheduler invokes the outer continuation exactly once (the invocation
log has exactly one entry), with the pair (a, b), during instant d+1 — only
once both sub-processes have produced their values, whichever side completed
first — and the join cell ends fully consumed (both slots and the stored
one-shot next continuation are empty, so next was taken exactly once). -/
theorem c7_join_invokes_once_with_pair (g : Nat → Nat → Nat) (a b : Val)
    (d : Nat) :
    ((run_instants g 50 (d + 1) (init_runtime
        [Task.runProc (Proc.join (Proc.value a) (pauseN d (Proc.value b)))
          (Task.user 0)])).invocation_log = [(d + 1, 0, Val.pair a b)]
      ∧ (run_instants g 50 (d + 1) (init_runtime
        [Task.runProc (Proc.join (Proc.value a) (pauseN d (Proc.value b)))
          (Task.user 0)])).join_cells = [⟨none, none, none⟩])
    ∧ ((run_instants g 50 (d + 1) (init_runtime
        [Task.runProc (Proc.join (pauseN d (Proc.value a)) (Proc.value b))
          (Task.user 0)])).invocation_log = [(d + 1, 0, Val.pair a b)]
      ∧ (run_instants g 50 (d + 1) (init_runtime
        [Task.runProc (Proc.join (pauseN d (Proc.value a)) (Proc.value b))
          (Task.user 0)])).join_cells = [⟨none, none, none⟩]) := by
  cases d with
  | zero => exact ⟨⟨rfl, rfl⟩, ⟨rfl, rfl⟩⟩
  | succ e =>
      have hA : run_instants g 50 (e + 1 + 1) (init_runtime
          [Task.runProc (Proc.join (Proc.value a) (pauseN (e + 1) (Proc.value b)))
            (Task.user 0)])
          = Runtime.mk [] [] [] init_signal [] [⟨none, none, none⟩]
              (2 + e + 1) [(2 + e, 0, Val.pair a b)] none := by
        show run_instants g 50 (e + 1) (instant g 50 (init_runtime
          [Task.runProc (Proc.join (Proc.value a) (pauseN (e + 1) (Proc.value b)))
            (Task.user 0)])) = _
        rw [join_start_right g a b e]
        rw [run_instants_add g 50 e 1]
        rw [run_peel g e (Task.joinK2 0) b init_signal []
          [⟨some a, none, some (Task.user 0)⟩] 2 [] none]
        show instant g 50 (Runtime.mk [Task.resume (Task.joinK2 0) b] [] []
          init_signal [] [⟨some a, none, some (Task.user 0)⟩] (2 + e) [] none) = _
        rw [join_finish_right g a b (2 + e)]
      have hB : run_instants g 50 (e + 1 + 1) (init_runtime
          [Task.runProc (Proc.join (pauseN (e + 1) (Proc.value a)) (Proc.value b))
            (Task.user 0)])
          = Runtime.mk [] [] [] init_signal [] [⟨none, none, none⟩]
              (2 + e + 1) [(2 + e, 0, Val.pair a b)] none := by
        show run_instants g 50 (e + 1) (instant g 50 (init_runtime
          [Task.runProc (Proc.join (pauseN (e + 1) (Proc.value a)) (Proc.value b))
            (Task.user 0)])) = _
        rw [join_start_left g a b e]
        rw [run_instants_add g 50 e 1]
        rw [run_peel g e (Task.joinK1 0) a init_signal []
          [⟨none, some b, some (Task.user 0)⟩] 2 [] none]
        show instant g 50 (Runtime.mk [Task.resume (Task.joinK1 0) a] [] []
          init_signal [] [⟨none, some b, some (Task.user 0)⟩] (2 + e) [] none) = _
        rw [join_finish_left g a b (2 + e)]
      have hstamp : 2 + e = e + 1 + 1 := by omega
      rw [hA, hB, hstamp]
      exact ⟨⟨rfl, rfl⟩, ⟨rfl, rfl⟩⟩

end Reactrust
